import Mathlib

/-!
Verification of the check/reducer combinator core of a command-line
argument matcher (`src/actions.rs`).

Modelling conventions:
* Argument text is a `List Char` (`Str`); Rust byte slicing in the code
  under study only ever happens at `char` boundaries of the literals
  involved, so character lists are a faithful model.
* Rust panics (`unwrap` on a missing value, the explicit `panic!` in
  `PushStringValue`, `unwrap_user` on a boundary sentinel) are fatal,
  non-recoverable contract violations; they are modelled by returning
  `none` from `apply_reducer` / `apply_check`.
* `HashSet<String>` parameters are modelled as `List Str` queried only
  through membership, which is all the code does with them.
* `char::is_alphanumeric` / `char::is_alphabetic` are modelled by the
  ASCII classifiers `Char.isAlphanum` / `Char.isAlpha`; all behaviour
  studied here involves ASCII text only.
* `RunState`, `PartialRunState`, `Positional`, `Token`, `OptionValue`
  and `Arg` are declared in the crate's `runner` / `shared` modules,
  whose sources are not available; their shape is reconstructed from
  the specification and from how `actions.rs` uses them.
-/

namespace Clipanion

/-- Argument text: a string modelled as a list of characters. -/
abbrev Str := List Char

/-- Modelled from the spec: `Arg` is a variant over
`{User(text), EndOfInput, EndOfPartialInput}` (declared in the crate's
`shared` module, not under `src/`). -/
inductive Arg where
  | user (text : Str)
  | endOfInput
  | endOfPartialInput
deriving DecidableEq

/-- Modelled from the spec: `unwrap_user` yields `text` for `User` and is a
fatal precondition violation for the two sentinels; the fatal outcome is
modelled as `none`. -/
def Arg.unwrap_user : Arg → Option Str
  | .user text => some text
  | .endOfInput => Option.none
  | .endOfPartialInput => Option.none

/-- Modelled from the spec: `OptionValue` is a variant over
`{None, Bool, String, Array}` (declared in the crate's `runner` module). -/
inductive OptionValue where
  | None
  | Bool (b : Bool)
  | String (s : Str)
  | Array (xs : List Str)
deriving DecidableEq

/-- Modelled from the spec: `Positional` tags how a bare argument was
classified when consumed (declared in the crate's `runner` module). -/
inductive Positional where
  | Required (text : Str)
  | Optional (text : Str)
  | Rest (text : Str)
deriving DecidableEq

/-- Modelled from the spec: `Token` is a variant over
`{Option, Assign, Value}` diagnostic records, each carrying the index of
the argv element that produced it and an optional `(start, end)` character
slice (declared in the crate's `runner` module). -/
inductive Token where
  | option (segment_index : Nat) (slice : Option (Nat × Nat)) (name : Str)
  | assign (segment_index : Nat) (slice : Nat × Nat)
  | value (segment_index : Nat) (slice : Option (Nat × Nat))
deriving DecidableEq

/-- The argv element index a token was produced from. -/
def Token.segment : Token → Nat
  | .option segment_index _ _ => segment_index
  | .assign segment_index _ => segment_index
  | .value segment_index _ => segment_index

/-- Modelled from the spec: the working parse state (declared in the
crate's `runner` module). `error_message` is assigned whole formatted
strings by `actions.rs`, so it is plain text (empty = unset). -/
structure RunState where
  ignore_options : Bool := false
  options : List (Str × OptionValue) := []
  positionals : List Positional := []
  tokens : List Token := []
  path : List Str := []
  error_message : Str := []
  selected_index : Option Int := Option.none
deriving DecidableEq

/-- Modelled from the spec: a sparse version of `RunState` where every
field is optionally present (declared in the crate's `runner` module,
derived via the `partially` crate). -/
structure PartialRunState where
  ignore_options : Option Bool := Option.none
  options : Option (List (Str × OptionValue)) := Option.none
  positionals : Option (List Positional) := Option.none
  tokens : Option (List Token) := Option.none
  path : Option (List Str) := Option.none
  error_message : Option Str := Option.none
  selected_index : Option (Option Int) := Option.none
deriving DecidableEq

/-- Modelled from the spec: `apply_some` overlays only the present fields
of a `PartialRunState` onto a `RunState`, leaving absent fields
untouched. -/
def RunState.apply_some (s : RunState) (p : PartialRunState) : RunState where
  ignore_options := p.ignore_options.getD s.ignore_options
  options := p.options.getD s.options
  positionals := p.positionals.getD s.positionals
  tokens := p.tokens.getD s.tokens
  path := p.path.getD s.path
  error_message := p.error_message.getD s.error_message
  selected_index := p.selected_index.getD s.selected_index

/-- The `Reducer` instruction set from `src/actions.rs`. -/
inductive Reducer where
  | None
  | InhibateOptions
  | PushBatch
  | PushBound
  | PushExtra
  | PushFalse (name : Str)
  | PushNone (name : Str)
  | PushPath
  | PushPositional
  | PushRest
  | PushStringValue
  | PushTrue (name : Str)
  | SetCandidateState (p : PartialRunState)
  | SetError (message : Str)
  | SetOptionArityError
  | SetSelectedIndex (index : Int)
  | SetStringValue
  | UseHelp (index : Nat)
deriving DecidableEq

/-- The `Check` predicate library from `src/actions.rs`. -/
inductive Check where
  | Always
  | IsBatchOption (options : List Str)
  | IsBoundOption (options : List Str)
  | IsExact (needle : Str)
  | IsExactString (needle : Str)
  | IsHelp
  | IsNotOptionLike
  | IsOptionLike
  | IsUnsupportedOption (options : List Str)
  | IsInvalidOption
deriving DecidableEq

/-- Rust `text.starts_with('-')`-style single character prefix test. -/
def startsWithChar (cs : Str) (c : Char) : Bool :=
  match cs with
  | [] => false
  | c0 :: _ => c0 == c

/-- The synthesized single-letter option name `format!("-{}", &arg[t..t+1])`
of the `PushBatch` arm. -/
def batch_name (cs : Str) (t : Nat) : Str :=
  '-' :: (cs.drop t).take 1

/-- The slice of the Option token synthesized by the `PushBatch` arm:
`(0, 2)` for the first character position, `(t, t + 1)` afterwards. -/
def batch_slice (t : Nat) : Nat × Nat :=
  if t == 1 then (0, 2) else (t, t + 1)

/-- One iteration of the `for t in 1..arg.len()` loop of the `PushBatch`
arm: append the synthesized option with `Bool(true)` and the matching
Option token. -/
def push_batch_step (segment_index : Nat) (cs : Str) (state : RunState) (t : Nat) :
    RunState :=
  { state with
    options := state.options ++ [(batch_name cs t, OptionValue.Bool true)],
    tokens := state.tokens ++
      [Token.option segment_index (some (batch_slice t)) (batch_name cs t)] }

/-- Function `apply_reducer` from `src/actions.rs`. Fatal contract violations
(`unwrap_user` on a sentinel, `unwrap` of a missing last option or of a
missing `=`, the `panic!` in `PushStringValue`) are modelled as `none`. -/
def apply_reducer (reducer : Reducer) (state : RunState) (arg : Arg)
    (segment_index : Nat) : Option RunState :=
  match reducer with
  | .InhibateOptions =>
      some { state with ignore_options := true }

  | .PushBatch =>
      match arg.unwrap_user with
      | Option.none => Option.none
      | some cs =>
          some ((List.range' 1 (cs.length - 1)).foldl
            (push_batch_step segment_index cs) state)

  | .PushBound =>
      match arg.unwrap_user with
      | Option.none => Option.none
      | some cs =>
          if cs.contains '=' then
            let name := cs.takeWhile (fun c => c ≠ '=')
            let value := cs.dropWhile (fun c => c ≠ '=')
            some { state with
              options := state.options ++
                [(name, OptionValue.String (value.drop 1))],
              tokens := state.tokens ++
                [Token.option segment_index (some (0, name.length)) name,
                 Token.assign segment_index (name.length, name.length + 1),
                 Token.value segment_index
                   (some (name.length + 1, value.length))] }
          else
            Option.none

  | .PushExtra =>
      match arg.unwrap_user with
      | Option.none => Option.none
      | some cs =>
          some { state with
            positionals := state.positionals ++ [Positional.Optional cs] }

  | .PushFalse name =>
      some { state with
        options := state.options ++ [(name, OptionValue.Bool false)],
        tokens := state.tokens ++
          [Token.option segment_index Option.none name] }

  | .PushNone name =>
      some { state with
        options := state.options ++ [(name, OptionValue.None)],
        tokens := state.tokens ++
          [Token.option segment_index Option.none name] }

  | .PushPath =>
      match arg.unwrap_user with
      | Option.none => Option.none
      | some cs => some { state with path := state.path ++ [cs] }

  | .PushPositional =>
      match arg.unwrap_user with
      | Option.none => Option.none
      | some cs =>
          some { state with
            positionals := state.positionals ++ [Positional.Required cs] }

  | .PushRest =>
      match arg.unwrap_user with
      | Option.none => Option.none
      | some cs =>
          some { state with
            positionals := state.positionals ++ [Positional.Rest cs] }

  | .PushStringValue =>
      match arg.unwrap_user with
      | Option.none => Option.none
      | some cs =>
          match state.options.getLast? with
          | Option.none => Option.none
          | some (name, OptionValue.None) =>
              some { state with
                options := state.options.dropLast ++
                  [(name, OptionValue.Array [cs])],
                tokens := state.tokens ++
                  [Token.value segment_index Option.none] }
          | some (name, OptionValue.Array values) =>
              some { state with
                options := state.options.dropLast ++
                  [(name, OptionValue.Array (values ++ [cs]))],
                tokens := state.tokens ++
                  [Token.value segment_index Option.none] }
          | some _ => Option.none

  | .PushTrue name =>
      some { state with
        options := state.options ++ [(name, OptionValue.Bool true)],
        tokens := state.tokens ++
          [Token.option segment_index Option.none name] }

  | .SetError message =>
      match arg with
      | .endOfInput | .endOfPartialInput =>
          some { state with error_message := message ++ ".".toList }
      | .user cs =>
          some { state with
            error_message :=
              message ++ " (\"".toList ++ cs ++ "\").".toList }

  | .SetOptionArityError =>
      match state.options.getLast? with
      | Option.none => Option.none
      | some last_option =>
          some { state with
            error_message :=
              "Not enough arguments to option ".toList ++
                last_option.1 ++ ".".toList }

  | .SetSelectedIndex index =>
      some { state with selected_index := some index }

  | .SetStringValue =>
      match arg.unwrap_user with
      | Option.none => Option.none
      | some cs =>
          match state.options.getLast? with
          | Option.none => Option.none
          | some last_option =>
              some { state with
                options := state.options.dropLast ++
                  [(last_option.1, OptionValue.String cs)],
                tokens := state.tokens ++
                  [Token.value segment_index Option.none] }

  | .UseHelp index =>
      some { state with
        options :=
          [("-c".toList, OptionValue.String (Nat.repr index).toList)] }

  | .SetCandidateState p =>
      some (state.apply_some p)

  | .None =>
      some state

/-- Function `is_valid_option` from `src/actions.rs`. -/
def is_valid_option (option : Str) : Bool :=
  if List.isPrefixOf "--".toList option then
    (option.drop 2).all (fun c => c.isAlphanum || c == '-')
  else if startsWithChar option '-' then
    (option.drop 1).all (fun c => c.isAlpha)
  else
    false

/-- Function `apply_check` from `src/actions.rs`. Every arm except `Always` begins
by calling `unwrap_user`, so on a boundary sentinel those arms are the
fatal contract violation, modelled as `none`. -/
def apply_check (check : Check) (state : RunState) (arg : Arg)
    (_segment_index : Nat) : Option Bool :=
  match check with
  | .Always => some true

  | .IsBatchOption options =>
      (arg.unwrap_user).map (fun cs =>
        !state.ignore_options && startsWithChar cs '-' &&
          decide (cs.length > 2) &&
          (cs.drop 1).all (fun c =>
            c.isAlphanum && options.contains ['-', c]))

  | .IsBoundOption options =>
      (arg.unwrap_user).map (fun cs =>
        !state.ignore_options && cs.contains '=' &&
          options.contains (cs.takeWhile (fun c => c ≠ '=')))

  | .IsExact needle =>
      (arg.unwrap_user).map (fun cs =>
        !state.ignore_options && cs == needle)

  | .IsHelp =>
      (arg.unwrap_user).map (fun cs =>
        !state.ignore_options &&
          (cs == "--help".toList || cs == "-h".toList ||
            List.isPrefixOf "--help=".toList cs))

  | .IsExactString needle =>
      (arg.unwrap_user).map (fun cs =>
        !state.ignore_options && cs == needle)

  | .IsNotOptionLike =>
      (arg.unwrap_user).map (fun cs =>
        state.ignore_options || cs == "-".toList || !startsWithChar cs '-')

  | .IsOptionLike =>
      (arg.unwrap_user).map (fun cs =>
        !state.ignore_options && cs != "-".toList && startsWithChar cs '-')

  | .IsUnsupportedOption options =>
      (arg.unwrap_user).map (fun cs =>
        !state.ignore_options && startsWithChar cs '-' &&
          is_valid_option cs && !options.contains cs)

  | .IsInvalidOption =>
      (arg.unwrap_user).map (fun cs =>
        !state.ignore_options && startsWithChar cs '-' &&
          !is_valid_option cs)

/-- The specification's option-validity rule, transcribed for tokens that
start with a dash: a long option is valid iff every character after the
two leading dashes is alphanumeric or a dash; a short option is valid iff
every character after the single leading dash is alphabetic. -/
def valid_option_rule (t : Str) : Bool :=
  if List.isPrefixOf "--".toList t then
    (t.drop 2).all (fun c => c.isAlphanum || c == '-')
  else
    (t.drop 1).all (fun c => c.isAlpha)

/-- Whether a reducer is the `SetCandidateState` wholesale-overlay form. -/
def Reducer.is_set_candidate_state : Reducer → Bool
  | .SetCandidateState _ => true
  | _ => false

/-- One call the transition engine makes into `apply_reducer`: the edge's
reducer label, the consumed input, and the argv position. -/
structure EngineStep where
  reducer : Reducer
  arg : Arg
  segment_index : Nat
deriving DecidableEq

/-- A lineage of `apply_reducer` calls threading the state through; any
fatal contract violation aborts the whole run. -/
def run_steps (s : RunState) : List EngineStep → Option RunState
  | [] => some s
  | step :: rest =>
      match apply_reducer step.reducer s step.arg step.segment_index with
      | Option.none => Option.none
      | some s2 => run_steps s2 rest

/-- A lineage is well-formed for a lower bound when it never uses the
`SetCandidateState` overlay and its segment indices are non-decreasing
starting from the bound (a single linear scan of argv). -/
def steps_ok (lo : Nat) : List EngineStep → Bool
  | [] => true
  | step :: rest =>
      !step.reducer.is_set_candidate_state && decide (lo ≤ step.segment_index) &&
        steps_ok step.segment_index rest

/-- The final segment index of a lineage, or the lower bound when the
lineage is empty. -/
def last_seg (lo : Nat) : List EngineStep → Nat
  | [] => lo
  | step :: rest => last_seg step.segment_index rest

/-- The token stream is non-decreasing in `segment_index`. -/
def tokens_non_decreasing (ts : List Token) : Prop :=
  List.Pairwise (fun a b => a.segment ≤ b.segment) ts

/-- A concrete two-step lineage used to exhibit the lineage invariant on
an actual run. -/
def demo_steps : List EngineStep :=
  [⟨Reducer.PushTrue "-a".toList, Arg.endOfInput, 0⟩,
   ⟨Reducer.PushTrue "-b".toList, Arg.endOfInput, 2⟩]

/-- The state `demo_steps` produces from the initial state. -/
def demo_final : RunState :=
  { options := [("-a".toList, OptionValue.Bool true),
                ("-b".toList, OptionValue.Bool true)],
    tokens := [Token.option 0 Option.none "-a".toList,
               Token.option 2 Option.none "-b".toList] }

/-- Unrolling the `PushBatch` loop: folding `push_batch_step` over any list
of character positions appends the corresponding synthesized options and
Option tokens and touches nothing else. -/
lemma foldl_push_batch (segment_index : Nat) (cs : Str) (ts : List Nat)
    (s : RunState) :
    ts.foldl (push_batch_step segment_index cs) s =
      { s with
        options := s.options ++
          ts.map (fun t => (batch_name cs t, OptionValue.Bool true)),
        tokens := s.tokens ++
          ts.map (fun t =>
            Token.option segment_index (some (batch_slice t)) (batch_name cs t)) } := by
  induction ts generalizing s with
  | nil => simp
  | cons t ts ih => simp [List.foldl_cons, ih, push_batch_step]

/-- On a token that starts with a dash, the code's `is_valid_option` agrees
with the specification's validity rule. -/
lemma is_valid_option_eq_rule (t : Str) (h : startsWithChar t '-' = true) :
    is_valid_option t = valid_option_rule t := by
  unfold is_valid_option valid_option_rule
  split
  · rfl
  · simp [h]

/-- Every reducer other than `SetCandidateState` only ever appends to the
token stream, and every appended token carries the segment index of the
call. -/
lemma apply_reducer_tokens_extend (reducer : Reducer) (s s2 : RunState) (a : Arg)
    (i : Nat) (hnc : reducer.is_set_candidate_state = false)
    (h : apply_reducer reducer s a i = some s2) :
    ∃ ts, s2.tokens = s.tokens ++ ts ∧ ∀ tk ∈ ts, tk.segment = i := by
  cases reducer with
  | SetCandidateState p =>
      simp [Reducer.is_set_candidate_state] at hnc
  | None =>
      obtain rfl := Option.some.inj h
      exact ⟨[], by simp, by simp⟩
  | InhibateOptions =>
      obtain rfl := Option.some.inj h
      exact ⟨[], by simp, by simp⟩
  | SetSelectedIndex index =>
      obtain rfl := Option.some.inj h
      exact ⟨[], by simp, by simp⟩
  | UseHelp index =>
      obtain rfl := Option.some.inj h
      exact ⟨[], by simp, by simp⟩
  | PushFalse name =>
      obtain rfl := Option.some.inj h
      exact ⟨[Token.option i Option.none name], rfl, by simp [Token.segment]⟩
  | PushNone name =>
      obtain rfl := Option.some.inj h
      exact ⟨[Token.option i Option.none name], rfl, by simp [Token.segment]⟩
  | PushTrue name =>
      obtain rfl := Option.some.inj h
      exact ⟨[Token.option i Option.none name], rfl, by simp [Token.segment]⟩
  | PushExtra =>
      cases a with
      | user cs =>
          obtain rfl := Option.some.inj h
          exact ⟨[], by simp, by simp⟩
      | endOfInput => exact absurd h (by simp [apply_reducer, Arg.unwrap_user])
      | endOfPartialInput => exact absurd h (by simp [apply_reducer, Arg.unwrap_user])
  | PushPath =>
      cases a with
      | user cs =>
          obtain rfl := Option.some.inj h
          exact ⟨[], by simp, by simp⟩
      | endOfInput => exact absurd h (by simp [apply_reducer, Arg.unwrap_user])
      | endOfPartialInput => exact absurd h (by simp [apply_reducer, Arg.unwrap_user])
  | PushPositional =>
      cases a with
      | user cs =>
          obtain rfl := Option.some.inj h
          exact ⟨[], by simp, by simp⟩
      | endOfInput => exact absurd h (by simp [apply_reducer, Arg.unwrap_user])
      | endOfPartialInput => exact absurd h (by simp [apply_reducer, Arg.unwrap_user])
  | PushRest =>
      cases a with
      | user cs =>
          obtain rfl := Option.some.inj h
          exact ⟨[], by simp, by simp⟩
      | endOfInput => exact absurd h (by simp [apply_reducer, Arg.unwrap_user])
      | endOfPartialInput => exact absurd h (by simp [apply_reducer, Arg.unwrap_user])
  | SetError message =>
      cases a <;>
        (obtain rfl := Option.some.inj h; exact ⟨[], by simp, by simp⟩)
  | SetOptionArityError =>
      rcases hl : s.options.getLast? with _ | last_option
      · exact absurd h (by simp [apply_reducer, hl])
      · simp only [apply_reducer, hl, Option.some.injEq] at h
        subst h
        exact ⟨[], by simp, by simp⟩
  | SetStringValue =>
      cases a with
      | user cs =>
          rcases hl : s.options.getLast? with _ | last_option
          · exact absurd h (by simp [apply_reducer, Arg.unwrap_user, hl])
          · simp only [apply_reducer, Arg.unwrap_user, hl, Option.some.injEq] at h
            subst h
            exact ⟨[Token.value i Option.none], rfl, by simp [Token.segment]⟩
      | endOfInput => exact absurd h (by simp [apply_reducer, Arg.unwrap_user])
      | endOfPartialInput => exact absurd h (by simp [apply_reducer, Arg.unwrap_user])
  | PushStringValue =>
      cases a with
      | user cs =>
          rcases hl : s.options.getLast? with _ | ⟨name, val⟩
          · exact absurd h (by simp [apply_reducer, Arg.unwrap_user, hl])
          · cases val with
            | None =>
                simp only [apply_reducer, Arg.unwrap_user, hl, Option.some.injEq] at h
                subst h
                exact ⟨[Token.value i Option.none], rfl, by simp [Token.segment]⟩
            | Array xs =>
                simp only [apply_reducer, Arg.unwrap_user, hl, Option.some.injEq] at h
                subst h
                exact ⟨[Token.value i Option.none], rfl, by simp [Token.segment]⟩
            | Bool b => exact absurd h (by simp [apply_reducer, Arg.unwrap_user, hl])
            | String w => exact absurd h (by simp [apply_reducer, Arg.unwrap_user, hl])
      | endOfInput => exact absurd h (by simp [apply_reducer, Arg.unwrap_user])
      | endOfPartialInput => exact absurd h (by simp [apply_reducer, Arg.unwrap_user])
  | PushBound =>
      cases a with
      | user cs =>
          simp only [apply_reducer, Arg.unwrap_user] at h
          split at h
          · simp only [Option.some.injEq] at h
            subst h
            refine ⟨_, rfl, ?_⟩
            intro tk htk
            simp only [List.mem_cons, List.not_mem_nil, or_false] at htk
            rcases htk with rfl | rfl | rfl <;> rfl
          · exact absurd h (by simp)
      | endOfInput => exact absurd h (by simp [apply_reducer, Arg.unwrap_user])
      | endOfPartialInput => exact absurd h (by simp [apply_reducer, Arg.unwrap_user])
  | PushBatch =>
      cases a with
      | user cs =>
          rw [show apply_reducer Reducer.PushBatch s (Arg.user cs) i =
              some ((List.range' 1 (cs.length - 1)).foldl (push_batch_step i cs) s)
            from rfl, foldl_push_batch] at h
          obtain rfl := (Option.some.inj h).symm
          refine ⟨_, rfl, ?_⟩
          intro tk htk
          simp only [List.mem_map] at htk
          obtain ⟨t, _, rfl⟩ := htk
          rfl
      | endOfInput => exact absurd h (by simp [apply_reducer, Arg.unwrap_user])
      | endOfPartialInput => exact absurd h (by simp [apply_reducer, Arg.unwrap_user])

/-- Along any lineage of non-`SetCandidateState` reducer calls whose
segment indices are non-decreasing from a bound dominating the starting
tokens, the token stream stays non-decreasing in `segment_index` and stays
dominated by the lineage's final segment index. -/
lemma run_steps_tokens_sorted (steps : List EngineStep) (s s2 : RunState) (lo : Nat)
    (hok : steps_ok lo steps = true)
    (hrun : run_steps s steps = some s2)
    (hsorted : tokens_non_decreasing s.tokens)
    (hbound : ∀ tk ∈ s.tokens, tk.segment ≤ lo) :
    tokens_non_decreasing s2.tokens ∧
      ∀ tk ∈ s2.tokens, tk.segment ≤ last_seg lo steps := by
  induction steps generalizing s lo with
  | nil =>
      obtain rfl := Option.some.inj hrun
      exact ⟨hsorted, hbound⟩
  | cons step rest ih =>
      simp only [steps_ok, Bool.and_eq_true, Bool.not_eq_true', decide_eq_true_eq] at hok
      obtain ⟨⟨hnc, hle⟩, hok'⟩ := hok
      rcases hr : apply_reducer step.reducer s step.arg step.segment_index with _ | s1
      · rw [run_steps, hr] at hrun
        exact absurd hrun (by simp)
      · rw [run_steps, hr] at hrun
        obtain ⟨ts, hts, hseg⟩ :=
          apply_reducer_tokens_extend step.reducer s s1 step.arg step.segment_index hnc hr
        exact ih s1 step.segment_index hok' hrun
          (by
            rw [tokens_non_decreasing, hts, List.pairwise_append]
            refine ⟨hsorted, ?_, ?_⟩
            · exact List.pairwise_of_forall_mem_list
                (fun a ha b hb => by rw [hseg a ha, hseg b hb])
            · intro a ha b hb
              exact le_trans (le_trans (hbound a ha) hle) (le_of_eq (hseg b hb).symm))
          (by
            intro tk htk
            rw [hts] at htk
            rcases List.mem_append.mp htk with hmem | hmem
            · exact le_trans (hbound tk hmem) hle
            · exact le_of_eq (hseg tk hmem))

/-- Claim C1. The claim states that `PushBound` on `"--name=value"` appends
the option entry `("--name", String("value"))` and three tokens whose
slices are contiguous and span the whole literal: `(0,6)`, `(6,7)`,
`(7,12)`. The code instead computes the Value token's end bound as the
length of the substring starting at the `=` (`value.len()`, here 6) rather
than the end position within the argument, producing the degenerate slice
`(7, 6)`: the option entry and the Option/Assign tokens are as claimed,
but the Value token does not span the remainder. -/
theorem pushBound_value_slice_end_is_wrong :
    apply_reducer Reducer.PushBound {} (Arg.user "--name=value".toList) 0 =
      some { options := [("--name".toList, OptionValue.String "value".toList)],
             tokens := [Token.option 0 (some (0, 6)) "--name".toList,
                        Token.assign 0 (6, 7),
                        Token.value 0 (some (7, 6))] } := by
  rfl

/-- Claim C2. For every state and segment index, `PushBatch` on `"-rf"`
appends exactly the option entries `[("-r", Bool(true)), ("-f", Bool(true))]`
in that order and exactly two Option tokens carrying that segment index
with slices `(0, 2)` and `(2, 3)`. -/
theorem pushBatch_rf_spec (s : RunState) (i : Nat) :
    apply_reducer Reducer.PushBatch s (Arg.user "-rf".toList) i =
      some { s with
        options := s.options ++
          [("-r".toList, OptionValue.Bool true), ("-f".toList, OptionValue.Bool true)],
        tokens := s.tokens ++
          [Token.option i (some (0, 2)) "-r".toList,
           Token.option i (some (2, 3)) "-f".toList] } := by
  show some (List.foldl (push_batch_step i "-rf".toList) s (List.range' 1 2)) = _
  rw [foldl_push_batch]
  rfl

/-- Claim C3. `SetError(message)` sets the error message to `"<message>."`
on either boundary sentinel and to `"<message> (\"<literal>\")."` on a
concrete user token; in particular the message "Unexpected value" yields
`"Unexpected value (\"x\")."` on `User("x")` and `"Unexpected value."` on
`EndOfInput`. -/
theorem setError_message_format (s : RunState) (i : Nat) (message : Str) :
    (apply_reducer (Reducer.SetError message) s Arg.endOfInput i =
        some { s with error_message := message ++ ".".toList }) ∧
    (apply_reducer (Reducer.SetError message) s Arg.endOfPartialInput i =
        some { s with error_message := message ++ ".".toList }) ∧
    (∀ t : Str, apply_reducer (Reducer.SetError message) s (Arg.user t) i =
        some { s with
          error_message := message ++ " (\"".toList ++ t ++ "\").".toList }) ∧
    (apply_reducer (Reducer.SetError "Unexpected value".toList) s
        (Arg.user "x".toList) i =
      some { s with error_message := "Unexpected value (\"x\").".toList }) ∧
    (apply_reducer (Reducer.SetError "Unexpected value".toList) s Arg.endOfInput i =
      some { s with error_message := "Unexpected value.".toList }) :=
  ⟨rfl, rfl, fun _ => rfl, rfl, rfl⟩

/-- Claim C4. When the options list is non-empty, `PushStringValue` with a
user token promotes a last value of `None` to a one-element `Array`,
appends to a last value that is already an `Array`, and is a fatal
contract violation (modelled as `none`, never a user-facing error message)
on a `Bool` or `String` last value; in the non-fatal cases it appends a
Value token with the call's segment index and no slice. -/
theorem pushStringValue_spec (s : RunState) (v : Str) (i : Nat)
    (h : s.options ≠ []) :
    (∀ name, s.options.getLast? = some (name, OptionValue.None) →
      apply_reducer Reducer.PushStringValue s (Arg.user v) i =
        some { s with
          options := s.options.dropLast ++ [(name, OptionValue.Array [v])],
          tokens := s.tokens ++ [Token.value i Option.none] }) ∧
    (∀ name xs, s.options.getLast? = some (name, OptionValue.Array xs) →
      apply_reducer Reducer.PushStringValue s (Arg.user v) i =
        some { s with
          options := s.options.dropLast ++ [(name, OptionValue.Array (xs ++ [v]))],
          tokens := s.tokens ++ [Token.value i Option.none] }) ∧
    (∀ name b, s.options.getLast? = some (name, OptionValue.Bool b) →
      apply_reducer Reducer.PushStringValue s (Arg.user v) i = Option.none) ∧
    (∀ name w, s.options.getLast? = some (name, OptionValue.String w) →
      apply_reducer Reducer.PushStringValue s (Arg.user v) i = Option.none) := by
  refine ⟨fun name hl => ?_, fun name xs hl => ?_, fun name b hl => ?_,
    fun name w hl => ?_⟩ <;>
    simp [apply_reducer, Arg.unwrap_user, hl]

/-- Witness for claim C4 at a concrete state whose single option has a
pending (`None`) value. -/
theorem pushStringValue_spec_witness :
    apply_reducer Reducer.PushStringValue
        { options := [("-x".toList, OptionValue.None)] }
        (Arg.user "v".toList) 0 =
      some { options := [("-x".toList, OptionValue.Array ["v".toList])],
             tokens := [Token.value 0 Option.none] } := by
  have h := (pushStringValue_spec { options := [("-x".toList, OptionValue.None)] }
    "v".toList 0 (by decide)).1 "-x".toList (by decide)
  simpa using h

/-- Claim C5, counterexample. The claim asserts `IsHelp` answers true on
`"--help"` whatever the state's fields, including `ignore_options`; the
code gates the check behind `!state.ignore_options`, so with
`ignore_options` set it answers false on `"--help"`. -/
theorem isHelp_ignored_counterexample :
    ¬ (apply_check Check.IsHelp { ignore_options := true }
        (Arg.user "--help".toList) 0 = some true) := by
  decide

/-- Claim C5, amended. Provided options are not ignored, `IsHelp` on a user
token answers true exactly on `"--help"`, `"-h"`, and tokens beginning
`"--help="`; when `ignore_options` is set it answers false; in particular
it is true for `"-h"`, `"--help"`, `"--help=topic"` and false for
`"--helper"` in a non-ignoring state, and false for `"--help"` in an
ignoring state. -/
theorem isHelp_spec (s : RunState) (t : Str) (i : Nat) :
    (apply_check Check.IsHelp s (Arg.user t) i = some true ↔
      (s.ignore_options = false ∧
        (t = "--help".toList ∨ t = "-h".toList ∨
          List.isPrefixOf "--help=".toList t = true))) ∧
    apply_check Check.IsHelp { ignore_options := false } (Arg.user "-h".toList) i =
      some true ∧
    apply_check Check.IsHelp { ignore_options := false }
      (Arg.user "--help".toList) i = some true ∧
    apply_check Check.IsHelp { ignore_options := false }
      (Arg.user "--help=topic".toList) i = some true ∧
    apply_check Check.IsHelp { ignore_options := false }
      (Arg.user "--helper".toList) i = some false ∧
    apply_check Check.IsHelp { ignore_options := true }
      (Arg.user "--help".toList) i = some false := by
  refine ⟨?_, rfl, rfl, rfl, rfl, rfl⟩
  simp [apply_check, Arg.unwrap_user, Bool.and_eq_true, Bool.or_eq_true,
    Bool.not_eq_true', or_assoc]

/-- Claim C6. With options not ignored and a user token starting with a
dash, `IsInvalidOption` answers true exactly when the token fails the
validity rule and `IsUnsupportedOption(set)` answers true exactly when the
token satisfies the rule and is absent from the set; in particular
`IsInvalidOption` is true on `"--bad!"` and `"-1"`, and
`IsUnsupportedOption({"--known"})` is true on `"--unknown"` but false on
`"--bad!"`. -/
theorem option_validity_checks_spec (s : RunState) (t : Str) (i : Nat)
    (options : List Str)
    (h1 : s.ignore_options = false) (h2 : startsWithChar t '-' = true) :
    (apply_check Check.IsInvalidOption s (Arg.user t) i = some true ↔
      valid_option_rule t = false) ∧
    (apply_check (Check.IsUnsupportedOption options) s (Arg.user t) i = some true ↔
      (valid_option_rule t = true ∧ options.contains t = false)) ∧
    apply_check Check.IsInvalidOption s (Arg.user "--bad!".toList) i = some true ∧
    apply_check Check.IsInvalidOption s (Arg.user "-1".toList) i = some true ∧
    apply_check (Check.IsUnsupportedOption ["--known".toList]) s
      (Arg.user "--unknown".toList) i = some true ∧
    apply_check (Check.IsUnsupportedOption ["--known".toList]) s
      (Arg.user "--bad!".toList) i = some false := by
  refine ⟨?_, ?_, ?_, ?_, ?_, ?_⟩
  · simp [apply_check, Arg.unwrap_user, h1, h2, is_valid_option_eq_rule t h2,
      Bool.not_eq_true']
  · simp [apply_check, Arg.unwrap_user, h1, h2, is_valid_option_eq_rule t h2,
      Bool.not_eq_true']
  all_goals simp [apply_check, Arg.unwrap_user, h1]; decide

/-- Witness for claim C6 at the default state and the token `"--bad!"`. -/
theorem option_validity_checks_spec_witness :
    ({} : RunState).ignore_options = false ∧
    startsWithChar "--bad!".toList '-' = true ∧
    apply_check Check.IsInvalidOption {} (Arg.user "--bad!".toList) 0 = some true :=
  ⟨rfl, by decide,
    (option_validity_checks_spec {} "--bad!".toList 0 [] rfl (by decide)).2.2.1⟩

/-- Claim C7. Every check evaluates to a value (never the fatal
`unwrap_user` violation) on a `User` argument, and every check other than
`Always` begins by reading the literal text, so on either boundary
sentinel it is the fatal contract violation rather than a recoverable
false. -/
theorem apply_check_totality_spec :
    (∀ (check : Check) (s : RunState) (t : Str) (i : Nat),
      (apply_check check s (Arg.user t) i).isSome = true) ∧
    (∀ (check : Check) (s : RunState) (i : Nat), check ≠ Check.Always →
      apply_check check s Arg.endOfInput i = Option.none ∧
      apply_check check s Arg.endOfPartialInput i = Option.none) := by
  constructor
  · intro check s t i
    cases check <;> simp [apply_check, Arg.unwrap_user]
  · intro check s i h
    cases check <;> simp [apply_check, Arg.unwrap_user] <;> exact absurd rfl h

/-- Witness for claim C7: `IsHelp` is total on a user token and fatal on
both sentinels. -/
theorem apply_check_totality_spec_witness :
    (apply_check Check.IsHelp {} (Arg.user "x".toList) 0).isSome = true ∧
    apply_check Check.IsHelp {} Arg.endOfInput 0 = Option.none ∧
    apply_check Check.IsHelp {} Arg.endOfPartialInput 0 = Option.none :=
  ⟨apply_check_totality_spec.1 Check.IsHelp {} "x".toList 0,
   (apply_check_totality_spec.2 Check.IsHelp {} 0 (by decide)).1,
   (apply_check_totality_spec.2 Check.IsHelp {} 0 (by decide)).2⟩

/-- Claim C8. `Always` answers true on every state, argument and segment
index, and `Reducer::None` returns a state equal to its input. -/
theorem always_true_and_none_identity (s : RunState) (a : Arg) (i : Nat) :
    apply_check Check.Always s a i = some true ∧
    apply_reducer Reducer.None s a i = some s :=
  ⟨rfl, rfl⟩

/-- Claim C9. `SetCandidateState` with a partial state in which only
`error_message` is present overwrites exactly that field and leaves every
other field of the target state untouched. -/
theorem setCandidateState_error_overlay (s : RunState) (msg : Str) (a : Arg)
    (i : Nat) :
    apply_reducer (Reducer.SetCandidateState { error_message := some msg }) s a i =
      some { s with error_message := msg } :=
  rfl

/-- Claim C10. Every reducer other than `SetCandidateState` returns the
input token stream followed by zero or more appended tokens, each carrying
exactly the segment index of the call; consequently, along any lineage of
such calls with non-decreasing segment indices, the token stream of every
reachable state is non-decreasing in `segment_index` (and dominated by the
lineage's final segment index). -/
theorem tokens_appended_with_segment_index :
    (∀ (reducer : Reducer) (s s2 : RunState) (a : Arg) (i : Nat),
        reducer.is_set_candidate_state = false →
        apply_reducer reducer s a i = some s2 →
        ∃ ts, s2.tokens = s.tokens ++ ts ∧ ∀ tk ∈ ts, tk.segment = i) ∧
    (∀ (steps : List EngineStep) (s s2 : RunState) (lo : Nat),
        steps_ok lo steps = true →
        run_steps s steps = some s2 →
        tokens_non_decreasing s.tokens →
        (∀ tk ∈ s.tokens, tk.segment ≤ lo) →
        tokens_non_decreasing s2.tokens ∧
          ∀ tk ∈ s2.tokens, tk.segment ≤ last_seg lo steps) :=
  ⟨apply_reducer_tokens_extend, run_steps_tokens_sorted⟩

/-- Witness for claim C10 on a concrete two-step lineage from the initial
state. -/
theorem tokens_appended_with_segment_index_witness :
    steps_ok 0 demo_steps = true ∧
    run_steps {} demo_steps = some demo_final ∧
    (tokens_non_decreasing demo_final.tokens ∧
      ∀ tk ∈ demo_final.tokens, tk.segment ≤ last_seg 0 demo_steps) :=
  ⟨by decide, rfl,
    tokens_appended_with_segment_index.2 demo_steps {} demo_final 0 (by decide) rfl
      List.Pairwise.nil (by decide)⟩

end Clipanion
